import Mathlib

/-!
Shallow embedding of the WhatsApp chat statistics generator
(generate_stats_v3.py: parse_chat, filter_last_365_days, normalize_name,
calculate_stats), together with theorems settling the specification claims.

Strings are modelled as lists of characters.  Python dictionaries are
modelled as insertion-ordered association lists.  Python reference
semantics in the parser (the pending message is a mutable object that may
already sit in the output list) are modelled with a store of messages and
an output list of store indices.  Python exceptions are modelled with
Except; the one reachable raise site is max() over an empty sequence.
-/

/-! ### Character classes and basic string operations -/

def isDigitCh (c : Char) : Bool := 48 ≤ c.toNat && c.toNat ≤ 57

def digitVal (c : Char) : Nat := c.toNat - 48

/-- Whitespace as recognised by Python str.strip and the regex class \s. -/
def isPySpace (c : Char) : Bool :=
  let n := c.toNat
  n = 32 || n = 9 || n = 10 || n = 11 || n = 12 || n = 13 ||
  n = 28 || n = 29 || n = 30 || n = 31 || n = 133 || n = 160 ||
  n = 0x1680 || (0x2000 ≤ n && n ≤ 0x200A) || n = 0x2028 || n = 0x2029 ||
  n = 0x202F || n = 0x205F || n = 0x3000

/-- The invisible direction-mark characters stripped by the source:
the argument of lstrip in parse_chat. -/
def isMarkerCh (c : Char) : Bool :=
  let n := c.toNat
  n = 0x200E || n = 0x200F || n = 0x202A || n = 0x202B || n = 0x202C ||
  n = 0x202D || n = 0x202E

def lstripMarkers (l : List Char) : List Char := l.dropWhile isMarkerCh

def rstripBy (p : Char → Bool) (l : List Char) : List Char :=
  (l.reverse.dropWhile p).reverse

/-- Model of line.rstrip applied with the two newline characters. -/
def rstripNL (l : List Char) : List Char :=
  rstripBy (fun c => c = Char.ofNat 10 || c = Char.ofNat 13) l

/-- Model of Python str.strip with no argument (whitespace both ends). -/
def pyStrip (l : List Char) : List Char :=
  rstripBy isPySpace (l.dropWhile isPySpace)

def asciiLower (c : Char) : Char :=
  if 65 ≤ c.toNat && c.toNat ≤ 90 then Char.ofNat (c.toNat + 32) else c

def lowerL (l : List Char) : List Char := l.map asciiLower

def startsWithL : List Char → List Char → Bool
  | [], _ => true
  | _ :: _, [] => false
  | a :: ps, b :: ls => a = b && startsWithL ps ls

/-- Model of the Python substring test, needle in hay: the needle starts
at this position or somewhere in the tail. -/
def containsSub : List Char → List Char → Bool
  | [], needle => startsWithL needle []
  | c :: t, needle => startsWithL needle (c :: t) || containsSub t needle

/-! ### Proleptic Gregorian calendar, as validated by datetime -/

def isLeap (y : Nat) : Bool := y % 4 = 0 && (y % 100 ≠ 0 || y % 400 = 0)

def daysInMonth (y m : Nat) : Nat :=
  if m = 2 then (if isLeap y then 29 else 28)
  else if m = 4 ∨ m = 6 ∨ m = 9 ∨ m = 11 then 30
  else 31

def daysBeforeYear (y : Nat) : Nat :=
  (y - 1) * 365 + (y - 1) / 4 - (y - 1) / 100 + (y - 1) / 400

def daysBeforeMonth (y m : Nat) : Nat :=
  (List.range (m - 1)).foldl (fun a k => a + daysInMonth y (k + 1)) 0

/-- Day number with day zero at January 1 of year 1 (a Monday in the
proleptic Gregorian calendar used by datetime). -/
def toDayNumber (y m d : Nat) : Nat :=
  daysBeforeYear y + daysBeforeMonth y m + (d - 1)

/-- Ranges accepted by the datetime constructor; outside them it raises
ValueError. -/
def validDate (y m d hh mi ss : Nat) : Bool :=
  1 ≤ y && y ≤ 9999 && 1 ≤ m && m ≤ 12 && 1 ≤ d && d ≤ daysInMonth y m &&
  hh ≤ 23 && mi ≤ 59 && ss ≤ 59

structure DT where
  year : Nat
  month : Nat
  day : Nat
  hour : Nat
  minute : Nat
  second : Nat
deriving DecidableEq, Repr, Inhabited

def toSecs (t : DT) : Nat :=
  toDayNumber t.year t.month t.day * 86400 + t.hour * 3600 + t.minute * 60 + t.second

/-- Python weekday(): Monday is 0. -/
def weekdayOf (t : DT) : Nat := toDayNumber t.year t.month t.day % 7

/-- Elapsed minutes (msg - prev).total_seconds() / 60 as the exact
rational, built with mkRat so that concrete runs evaluate. -/
def diffMinutes (a b : DT) : ℚ := mkRat ((toSecs b : ℤ) - (toSecs a : ℤ)) 60

/-! ### The message-start pattern of parse_chat -/

structure MatchGroups where
  month : Nat
  day : Nat
  year : Nat
  hour : Nat
  minute : Nat
  second : Nat
  pm : Option Bool
  sender : List Char
  content : List Char
deriving DecidableEq, Repr

/-- Model of the regex piece matching one or two digits followed by a
fixed delimiter: the delimiter is checked by the caller, and the
greedy-then-backtrack behaviour collapses to taking two digits when the
second character is a digit, else one. -/
def parse1or2 : List Char → Option (Nat × List Char)
  | a :: b :: rest =>
    if isDigitCh a && isDigitCh b then some (digitVal a * 10 + digitVal b, rest)
    else if isDigitCh a then some (digitVal a, b :: rest)
    else none
  | [a] => if isDigitCh a then some (digitVal a, []) else none
  | [] => none

def parse2 : List Char → Option (Nat × List Char)
  | a :: b :: rest =>
    if isDigitCh a && isDigitCh b then some (digitVal a * 10 + digitVal b, rest)
    else none
  | _ => none

def expectCh (c : Char) : List Char → Option (List Char)
  | a :: rest => if a = c then some rest else none
  | [] => none

def skipSpaces (l : List Char) : List Char := l.dropWhile isPySpace

/-- Optional case-insensitive AM or PM: some false is AM, some true is PM. -/
def parseAmPm : List Char → Option Bool × List Char
  | a :: b :: rest =>
    if asciiLower a = Char.ofNat 97 && asciiLower b = Char.ofNat 109 then (some false, rest)
    else if asciiLower a = Char.ofNat 112 && asciiLower b = Char.ofNat 109 then (some true, rest)
    else (none, a :: b :: rest)
  | l => (none, l)

def idxOfColon : List Char → Option Nat
  | [] => none
  | a :: rest => if a = Char.ofNat 58 then some 0 else (idxOfColon rest).map (· + 1)

/-- The sender piece of the pattern after the closing bracket: leading
whitespace, then one or more non-colon characters, then a colon.  Regex
backtracking lets the greedy whitespace run give back one space when the
colon immediately follows it, so the sender is never empty. -/
def parseSender (r : List Char) : Option (List Char × List Char) :=
  match idxOfColon r with
  | none => none
  | some c =>
    if c = 0 then none
    else
      let k := (r.takeWhile isPySpace).length
      let j := min k (c - 1)
      some ((r.drop j).take (c - j), r.drop (c + 1))

/-- Model of message_pattern.match: the full message-start regex. -/
def matchStart (l : List Char) : Option MatchGroups := do
  let l1 := match l with
    | c :: rest => if c = Char.ofNat 0x200E then rest else l
    | [] => l
  let r0 ← expectCh (Char.ofNat 91) l1
  let (mo, r1) ← parse1or2 r0
  let r2 ← expectCh (Char.ofNat 47) r1
  let (dy, r3) ← parse1or2 r2
  let r4 ← expectCh (Char.ofNat 47) r3
  let (yr, r5) ← parse2 r4
  let r6 ← expectCh (Char.ofNat 44) r5
  let (hh, r8) ← parse1or2 (skipSpaces r6)
  let r9 ← expectCh (Char.ofNat 58) r8
  let (mi, r10) ← parse2 r9
  let r11 ← expectCh (Char.ofNat 58) r10
  let (ss, r12) ← parse2 r11
  let (ap, r14) := parseAmPm (skipSpaces r12)
  let r15 ← expectCh (Char.ofNat 93) r14
  let (snd, r16) ← parseSender r15
  some { month := mo, day := dy, year := yr, hour := hh, minute := mi,
         second := ss, pm := ap, sender := snd, content := skipSpaces r16 }

structure Message where
  date : DT
  sender : List Char
  content : List Char
  is_media : Bool
  is_deleted : Bool
  is_system : Bool
deriving DecidableEq, Repr, Inhabited

/-- Century pivot for the two-digit year. -/
def pivotYear (y : Nat) : Nat := if y < 50 then 2000 + y else 1900 + y

/-- Conversion of the captured hour to the 24-hour clock from the
optional meridiem marker. -/
def to24Hour (pm : Option Bool) (h : Nat) : Nat :=
  match pm with
  | some true => if h ≠ 12 then h + 12 else h
  | some false => if h = 12 then 0 else h
  | none => h

/-- The cleaned content of a start line: stripped, then cleared of
leading invisible marks. -/
def cleanContent (c : List Char) : List Char := lstripMarkers (pyStrip c)

/-- Construction of the pending message from the matched groups: the
century pivot, the meridiem conversion, the datetime validation (none on
ValueError), and the content and flag computations of parse_chat. -/
def buildMessage (g : MatchGroups) : Option Message :=
  if validDate (pivotYear g.year) g.month g.day (to24Hour g.pm g.hour)
      g.minute g.second then
    some { date := ⟨pivotYear g.year, g.month, g.day, to24Hour g.pm g.hour,
             g.minute, g.second⟩
           sender := pyStrip g.sender
           content := cleanContent g.content
           is_media := containsSub (lowerL (cleanContent g.content)) ("omitted".data)
           is_deleted := containsSub (lowerL (cleanContent g.content)) ("deleted".data) ||
             containsSub (lowerL (cleanContent g.content)) ("this message was deleted".data)
           is_system := containsSub (lowerL g.sender) ("frat party".data) ||
             startsWithL ("2K25".data) (pyStrip g.sender) }
  else none

/-- The double match attempt of the source: first the marker-stripped
line, then the raw line. -/
def lineMatch (line : List Char) : Option MatchGroups :=
  match matchStart (lstripMarkers line) with
  | some g => some g
  | none => matchStart line

/-! ### Parser state: store plus output indices plus pending index

The Python pending message is a mutable dict that parse_chat may append
to the output list and keep mutating afterwards; the store of message
objects with an output list of indices reproduces that aliasing. -/

structure PState where
  store : List Message
  output : List Nat
  cur : Option Nat
deriving Repr

def flushPending (s : PState) : PState :=
  match s.cur with
  | some i => { s with output := s.output ++ [i] }
  | none => s

def appendCont (m : Message) (t : List Char) : Message :=
  { m with content := m.content ++ (Char.ofNat 32 :: t) }

def processLine (s : PState) (raw : List Char) : PState :=
  let line := rstripNL raw
  if line = [] then s
  else
    match lineMatch line with
    | some g =>
      let s1 := flushPending s
      match buildMessage g with
      | some m => { store := s1.store ++ [m], output := s1.output, cur := some s1.store.length }
      | none => s1
    | none =>
      match s.cur with
      | some i =>
        if pyStrip line = [] then s
        else { s with store := s.store.set i (appendCont (s.store.getD i default) (pyStrip line)) }
      | none => s

def parse_chat (lines : List (List Char)) : List Message :=
  let s := lines.foldl processLine ⟨[], [], none⟩
  let s1 := flushPending s
  s1.output.map (fun i => s1.store.getD i default)

/-- Timestamp (in seconds) of the message a line would start, when the
line matches the pattern and its calendar date constructs. -/
def lineTimestamp (raw : List Char) : Option Nat :=
  let line := rstripNL raw
  if line = [] then none
  else
    match lineMatch line with
    | some g => (buildMessage g).map (fun m => toSecs m.date)
    | none => none

def startTimestamps (lines : List (List Char)) : List Nat :=
  lines.filterMap lineTimestamp

def filter_last_365_days (messages : List Message) : List Message :=
  messages.filter (fun m =>
    toSecs ⟨2024, 11, 25, 0, 0, 0⟩ ≤ toSecs m.date &&
    toSecs m.date ≤ toSecs ⟨2025, 11, 25, 23, 59, 59⟩)

/-! ### Identity normalization -/

def normalize_name (name : List Char) : List Char :=
  if name = ("Abanob Nashat".data) then ("Abanob".data)
  else if name = ("Fady Barsoum".data) then ("Fady B".data)
  else if name = ("Fady Henen".data) then ("Fady H".data)
  else if name = ("David Hana".data) then ("David".data)
  else if name = ("Meena Ibrahim".data) then ("Meena".data)
  else if name = ("Andro A.".data) then ("Andro".data)
  else if name = (("Thomas hanna David".data) ++ [Char.ofNat 39] ++ ("s Brother".data)) then ("Thomas".data)
  else if name = ("Kirolous Kamel".data) then ("Kiro".data)
  else if name = ("Aziz El Romancy".data) then ("Aziz".data)
  else if name = ("Aziz El Romancy😍".data) then ("Aziz".data)
  else name

/-! ### Association lists for Python dicts and defaultdicts -/

def alookup {α β : Type} [DecidableEq α] (l : List (α × β)) (k : α) : Option β :=
  match l with
  | [] => none
  | (a, v) :: rest => if a = k then some v else alookup rest k

def aset {α β : Type} [DecidableEq α] (l : List (α × β)) (k : α) (f : β → β) :
    List (α × β) :=
  match l with
  | [] => []
  | (a, v) :: rest => if a = k then (a, f v) :: rest else (a, v) :: aset rest k f

/-- Access through defaultdict: insert the default at the end (insertion
order) when the key is new. -/
def ensureKey {α β : Type} [DecidableEq α] (l : List (α × β)) (k : α) (d : β) :
    List (α × β) :=
  if (alookup l k).isSome then l else l ++ [(k, d)]

/-- Increment of a defaultdict(int) entry. -/
def bumpCount {α : Type} [DecidableEq α] (l : List (α × Nat)) (k : α) :
    List (α × Nat) :=
  if (alookup l k).isSome then aset l k (· + 1) else l ++ [(k, 1)]

/-- Insertion into a set, kept as a duplicate-free list. -/
def addMem {α : Type} [DecidableEq α] (l : List α) (x : α) : List α :=
  if x ∈ l then l else l ++ [x]

def incNth (l : List Nat) (i : Nat) : List Nat := l.set i (l.getD i 0 + 1)

/-! ### The classification predicates of calculate_stats -/

def isEmojiChar (c : Char) : Bool :=
  let n := c.toNat
  (0x1F600 ≤ n && n ≤ 0x1F64F) || (0x1F300 ≤ n && n ≤ 0x1F5FF) ||
  (0x1F680 ≤ n && n ≤ 0x1F6FF) || (0x1F700 ≤ n && n ≤ 0x1F77F) ||
  (0x1F780 ≤ n && n ≤ 0x1F7FF) || (0x1F800 ≤ n && n ≤ 0x1F8FF) ||
  (0x1F900 ≤ n && n ≤ 0x1F9FF) || (0x1FA00 ≤ n && n ≤ 0x1FA6F) ||
  (0x1FA70 ≤ n && n ≤ 0x1FAFF) || (0x2600 ≤ n && n ≤ 0x26FF) ||
  (0x2700 ≤ n && n ≤ 0x27BF)

/-- Count of maximal runs of characters satisfying p: findall with a
one-character-class-plus pattern returns one string per run. -/
def countRunsAux (p : Char → Bool) : List Char → Bool → Nat
  | [], _ => 0
  | c :: rest, inRun =>
    if p c then (if inRun then 0 else 1) + countRunsAux p rest true
    else countRunsAux p rest false

def countRuns (p : Char → Bool) (l : List Char) : Nat := countRunsAux p l false

/-- Length of the laugh-pattern alternative matching at the head, trying
the alternatives in the order of the source regex. -/
def laughAlt (l : List Char) : Option Nat :=
  match l with
  | c :: _ =>
    if c.toNat = 0x1F602 || c.toNat = 0x1F606 || c.toNat = 0x1F923 then some 1
    else
      let low := lowerL (l.take 4)
      if startsWithL ("lol".data) low then some 3
      else if startsWithL ("lmao".data) low then some 4
      else if startsWithL ("haha".data) low then some 4
      else if startsWithL ("hehe".data) low then some 4
      else if startsWithL ("rofl".data) low then some 4
      else none
  | [] => none

/-- Length of a URL match at the head of the list, or none. -/
def linkAlt (l : List Char) : Option Nat :=
  if startsWithL ("http".data) (lowerL (l.take 4)) then
    let l4 := l.drop 4
    let sLen := match l4 with
      | c :: _ => if asciiLower c = Char.ofNat 115 then 1 else 0
      | [] => 0
    let l5 := l4.drop sLen
    if startsWithL ("://".data) l5 then
      let run := (l5.drop 3).takeWhile (fun c => ¬ isPySpace c)
      if run.length = 0 then none else some (4 + sLen + 3 + run.length)
    else none
  else none

/-- Length of a mention match at the head of the list, or none. -/
def mentionAlt (l : List Char) : Option Nat :=
  match l with
  | c :: rest =>
    if c = Char.ofNat 64 then
      let run := rest.takeWhile (fun x => ¬ isPySpace x)
      if run.length = 0 then none else some (1 + run.length)
    else none
  | [] => none

/-- Non-overlapping left-to-right scan counting matches of alt, with fuel
bounding the number of steps; every successful alternative consumes at
least one character, so fuel equal to the length is exact. -/
def countScanAux (alt : List Char → Option Nat) : Nat → List Char → Nat
  | 0, _ => 0
  | _ + 1, [] => 0
  | fuel + 1, c :: rest =>
    match alt (c :: rest) with
    | some n => 1 + countScanAux alt fuel (rest.drop (n - 1))
    | none => countScanAux alt fuel rest

def countScan (alt : List Char → Option Nat) (l : List Char) : Nat :=
  countScanAux alt l.length l

def isAsciiAlpha (c : Char) : Bool :=
  (65 ≤ c.toNat && c.toNat ≤ 90) || (97 ≤ c.toNat && c.toNat ≤ 122)

def isWordCh (c : Char) : Bool :=
  isAsciiAlpha c || (48 ≤ c.toNat && c.toNat ≤ 57) || c = Char.ofNat 95

/-- Words found by the boundary-delimited four-letter-run pattern: maximal
ASCII-letter runs of length at least four whose neighbours are not word
characters; the flag records whether the previous character was a word
character.  Fuel equal to the length is exact. -/
def wordsAux : Nat → List Char → Bool → List (List Char)
  | 0, _, _ => []
  | _ + 1, [], _ => []
  | fuel + 1, c :: rest, prevW =>
    if isAsciiAlpha c && !prevW then
      let run := c :: rest.takeWhile isAsciiAlpha
      let rest2 := rest.dropWhile isAsciiAlpha
      let ok := 4 ≤ run.length &&
        (match rest2 with | [] => true | d :: _ => ¬ isWordCh d)
      (if ok then [run] else []) ++ wordsAux fuel rest2 true
    else wordsAux fuel rest (isWordCh c)

def wordsFound (l : List Char) : List (List Char) := wordsAux l.length l false

/-- Python str.isupper over the ASCII cased characters: at least one cased
character and no lowercase one. -/
def pyIsUpper (l : List Char) : Bool :=
  l.any isAsciiAlpha && !(l.any (fun c => 97 ≤ c.toNat && c.toNat ≤ 122))

/-! ### Rounding as Python round: banker's rounding -/

def pyRoundInt (q : ℚ) : ℤ :=
  let f := q.floor
  let r := q - f
  if r < 1/2 then f
  else if 1/2 < r then f + 1
  else if f % 2 = 0 then f else f + 1

def pyRound1 (q : ℚ) : ℚ := (pyRoundInt (q * 10) : ℚ) / 10

/-! ### Aggregation state: the per-person and global structures -/

structure PersonStats where
  messages : Nat
  media : Nat
  total_chars : Nat
  response_times : List ℚ
  active_days : List (Nat × Nat × Nat)
  by_hour : List Nat
  by_day : List Nat
  emojis : Nat
  questions : Nat
  laughs : Nat
  exclamations : Nat
  caps_messages : Nat
  links : Nat
  mentions : Nat
  long_messages : Nat
  short_messages : Nat
  first_message : Option DT
  last_message : Option DT
  conversations_started : Nat
  replied_to_count : Nat
  weekend_messages : Nat
  late_night_messages : Nat
  morning_messages : Nat
  message_lengths : List Nat
deriving DecidableEq, Repr

/-- The defaultdict factory for a person record. -/
def initPerson : PersonStats where
  messages := 0
  media := 0
  total_chars := 0
  response_times := []
  active_days := []
  by_hour := List.replicate 24 0
  by_day := List.replicate 7 0
  emojis := 0
  questions := 0
  laughs := 0
  exclamations := 0
  caps_messages := 0
  links := 0
  mentions := 0
  long_messages := 0
  short_messages := 0
  first_message := none
  last_message := none
  conversations_started := 0
  replied_to_count := 0
  weekend_messages := 0
  late_night_messages := 0
  morning_messages := 0
  message_lengths := []

structure LongestMessage where
  sender : List Char
  length : Nat
  preview : List Char
deriving DecidableEq, Repr

structure StatsAcc where
  total_messages : Nat
  total_media : Nat
  total_chars : Nat
  by_person : List (List Char × PersonStats)
  by_month : List ((Nat × Nat) × Nat)
  by_hour : List Nat
  by_day_of_week : List Nat
  daily_counts : List ((Nat × Nat × Nat) × Nat)
  longest_message : LongestMessage
  active_days : List (Nat × Nat × Nat)
  word_counts : List (List Char × Nat)
deriving DecidableEq, Repr

def initStats : StatsAcc where
  total_messages := 0
  total_media := 0
  total_chars := 0
  by_person := []
  by_month := []
  by_hour := List.replicate 24 0
  by_day_of_week := List.replicate 7 0
  daily_counts := []
  longest_message := ⟨[], 0, []⟩
  active_days := []
  word_counts := []

structure AggState where
  stats : StatsAcc
  prev_message : Option Message
deriving Repr

def dateKeyOf (t : DT) : Nat × Nat × Nat := (t.year, t.month, t.day)

def monthKeyOf (t : DT) : Nat × Nat := (t.year, t.month)

/-- Weekday rotated so Sunday is 0, as in the source. -/
def dayOfWeekOf (t : DT) : Nat := (weekdayOf t + 1) % 7

/-- Preview of the longest message: the first 150 characters with an
ellipsis when truncated. -/
def previewOf (content : List Char) : List Char :=
  content.take 150 ++ (if 150 < content.length then ("...".data) else [])

/-- All mutations the loop body applies to the current person record.
The source applies them one field at a time; every condition depends only
on the message, so the sequential updates equal this simultaneous record
update field for field. -/
def personUpdate (msg : Message) (hour dow : Nat) (dateKey : Nat × Nat × Nat)
    (p : PersonStats) : PersonStats :=
  { p with
    messages := p.messages + 1
    active_days := addMem p.active_days dateKey
    by_hour := incNth p.by_hour hour
    by_day := incNth p.by_day dow
    weekend_messages := if dow = 0 ∨ dow = 6 then p.weekend_messages + 1
      else p.weekend_messages
    late_night_messages := if 23 ≤ hour ∨ hour < 4 then p.late_night_messages + 1
      else p.late_night_messages
    morning_messages := if 5 ≤ hour ∧ hour < 9 then p.morning_messages + 1
      else p.morning_messages
    first_message := match p.first_message with
      | none => some msg.date
      | some d => some d
    last_message := some msg.date
    media := if msg.is_media then p.media + 1 else p.media
    total_chars := if msg.is_media then p.total_chars
      else p.total_chars + msg.content.length
    message_lengths := if msg.is_media then p.message_lengths
      else p.message_lengths ++ [msg.content.length]
    long_messages := if ¬ msg.is_media ∧ 200 < msg.content.length then
      p.long_messages + 1 else p.long_messages
    short_messages := if ¬ msg.is_media ∧ ¬ 200 < msg.content.length ∧
        msg.content.length < 10 then p.short_messages + 1 else p.short_messages
    emojis := if msg.is_media then p.emojis
      else p.emojis + countRuns isEmojiChar msg.content
    questions := if ¬ msg.is_media ∧ msg.content.contains (Char.ofNat 63) then
      p.questions + 1 else p.questions
    exclamations := if ¬ msg.is_media ∧ msg.content.contains (Char.ofNat 33) then
      p.exclamations + 1 else p.exclamations
    caps_messages := if ¬ msg.is_media ∧ 5 < msg.content.length ∧ pyIsUpper msg.content then
      p.caps_messages + 1 else p.caps_messages
    laughs := if msg.is_media then p.laughs
      else p.laughs + countScan laughAlt msg.content
    links := if msg.is_media then p.links
      else p.links + countScan linkAlt msg.content
    mentions := if msg.is_media then p.mentions
      else p.mentions + countScan mentionAlt msg.content }

/-- One iteration of the aggregation loop of calculate_stats. -/
def processMessage (ag : AggState) (msg : Message) : AggState :=
  if msg.is_system then ag
  else
    let sender := normalize_name msg.sender
    let dateKey := dateKeyOf msg.date
    let monthKey := monthKeyOf msg.date
    let hour := msg.date.hour
    let dow := dayOfWeekOf msg.date
    let st := ag.stats
    let st := { st with
      by_person := (aset (ensureKey st.by_person sender initPerson) sender
        (personUpdate msg hour dow dateKey))
      total_messages := st.total_messages + 1
      active_days := addMem st.active_days dateKey
      by_hour := incNth st.by_hour hour
      by_day_of_week := incNth st.by_day_of_week dow
      by_month := bumpCount st.by_month monthKey
      daily_counts := bumpCount st.daily_counts dateKey
      total_media := if msg.is_media then st.total_media + 1 else st.total_media
      total_chars := if msg.is_media then st.total_chars
        else st.total_chars + msg.content.length
      longest_message := if ¬ msg.is_media ∧
          st.longest_message.length < msg.content.length then
        ⟨sender, msg.content.length, previewOf msg.content⟩ else st.longest_message
      word_counts := if msg.is_media then st.word_counts
        else (wordsFound (lowerL msg.content)).foldl bumpCount st.word_counts }
    let st :=
      match ag.prev_message with
      | none => st
      | some pm =>
        let time_diff := diffMinutes pm.date msg.date
        let bp := st.by_person
        let bp := if 120 < time_diff then
          (aset bp sender
            (fun p => { p with conversations_started := p.conversations_started + 1 }))
          else bp
        let bp := if pm.sender ≠ msg.sender ∧ 0 < time_diff ∧ time_diff < 60 then
          (aset bp sender
            (fun p => { p with response_times := p.response_times ++ [time_diff] }))
          else bp
        let bp := if pm.sender ≠ msg.sender ∧ time_diff < 30 then
          (if (alookup bp (normalize_name pm.sender)).isSome then
            (aset bp (normalize_name pm.sender)
              (fun p => { p with replied_to_count := p.replied_to_count + 1 }))
          else bp)
          else bp
        { st with by_person := bp }
    { stats := st, prev_message := some msg }

def aggregate (messages : List Message) : AggState :=
  messages.foldl processMessage ⟨initStats, none⟩

/-! ### Finalization -/

structure FinalPerson where
  messages : Nat
  media : Nat
  total_chars : Nat
  active_days : List (Nat × Nat × Nat)
  by_hour : List Nat
  by_day : List Nat
  emojis : Nat
  questions : Nat
  laughs : Nat
  exclamations : Nat
  caps_messages : Nat
  links : Nat
  mentions : Nat
  long_messages : Nat
  short_messages : Nat
  first_message : Option DT
  last_message : Option DT
  conversations_started : Nat
  replied_to_count : Nat
  weekend_messages : Nat
  late_night_messages : Nat
  morning_messages : Nat
  active_days_count : Nat
  avg_chars : ℤ
  avg_response : Option ℚ
  fastest_response : Option ℚ
  peak_hour : Nat
  peak_day : Nat
  engagement_rate : ℚ
  media_ratio : ℚ
deriving DecidableEq, Repr

/-- Python max over a list of naturals reachable here only on the
histograms, which are never empty. -/
def listMax (l : List Nat) : Nat := l.foldl max 0

/-- Python list.index of the first occurrence. -/
def idxOfFirst (l : List Nat) (v : Nat) : Nat :=
  match l with
  | [] => 0
  | a :: rest => if a = v then 0 else idxOfFirst rest v + 1

def qMean (l : List ℚ) : ℚ := l.sum / (l.length : ℚ)

def qMinimum (l : List ℚ) : ℚ :=
  match l with
  | [] => 0
  | a :: rest => rest.foldl min a

/-- The per-person derived statistics computed after the pass. -/
def finalizePerson (p : PersonStats) : FinalPerson :=
  let text_messages := p.messages - p.media
  { messages := p.messages
    media := p.media
    total_chars := p.total_chars
    active_days := p.active_days
    by_hour := p.by_hour
    by_day := p.by_day
    emojis := p.emojis
    questions := p.questions
    laughs := p.laughs
    exclamations := p.exclamations
    caps_messages := p.caps_messages
    links := p.links
    mentions := p.mentions
    long_messages := p.long_messages
    short_messages := p.short_messages
    first_message := p.first_message
    last_message := p.last_message
    conversations_started := p.conversations_started
    replied_to_count := p.replied_to_count
    weekend_messages := p.weekend_messages
    late_night_messages := p.late_night_messages
    morning_messages := p.morning_messages
    active_days_count := p.active_days.length
    avg_chars := if 0 < text_messages then
      pyRoundInt ((p.total_chars : ℚ) / (text_messages : ℚ)) else 0
    avg_response := match p.response_times with
      | [] => none
      | _ => some (pyRound1 (qMean p.response_times))
    fastest_response := match p.response_times with
      | [] => none
      | _ => some (pyRound1 (qMinimum p.response_times))
    peak_hour := idxOfFirst p.by_hour (listMax p.by_hour)
    peak_day := idxOfFirst p.by_day (listMax p.by_day)
    engagement_rate := if 0 < p.messages then
      pyRound1 ((p.replied_to_count : ℚ) / (p.messages : ℚ) * 100) else 0
    media_ratio := if 0 < p.messages then
      pyRound1 ((p.media : ℚ) / (p.messages : ℚ) * 100) else 0 }

/-- Python max with a count key over dict items: the first item with the
maximal count in insertion order, none on an empty dict (ValueError). -/
def maxByCountFirst {α : Type} (l : List (α × Nat)) : Option (α × Nat) :=
  match l with
  | [] => none
  | x :: rest => some (rest.foldl (fun best y => if best.2 < y.2 then y else best) x)

/-- Stable insertion keeping larger counts in front, ties in list order. -/
def insertDesc {α : Type} (x : α × Nat) : List (α × Nat) → List (α × Nat)
  | [] => [x]
  | y :: rest => if y.2 < x.2 then x :: y :: rest else y :: insertDesc x rest

/-- Stable descending sort by count, the documented behaviour of
Counter.most_common. -/
def sortDescByCount {α : Type} (l : List (α × Nat)) : List (α × Nat) :=
  l.foldr insertDesc []

def common_words : List (List Char) :=
  [("that".data), ("this".data), ("with".data), ("have".data), ("will".data),
   ("your".data), ("from".data), ("they".data), ("been".data), ("were".data),
   ("said".data), ("each".data), ("which".data), ("their".data), ("would".data),
   ("there".data), ("could".data), ("other".data), ("into".data), ("more".data),
   ("some".data), ("them".data), ("then".data), ("like".data), ("just".data),
   ("know".data), ("what".data), ("about".data), ("when".data), ("make".data),
   ("time".data), ("very".data), ("after".data), ("come".data), ("made".data),
   ("find".data), ("here".data), ("want".data), ("going".data), ("back".data),
   ("really".data), ("yeah".data), ("okay".data), ("good".data), ("gonna".data),
   ("dont".data), ("didnt".data), ("cant".data), ("wont".data), ("isnt".data)]

def topWords (wc : List (List Char × Nat)) : List (List Char × Nat) :=
  (((sortDescByCount wc).take 50).filter (fun x => ¬ x.1 ∈ common_words)).take 20

inductive PyErr where
  | valueError
deriving DecidableEq, Repr

structure FinalStats where
  total_messages : Nat
  total_media : Nat
  total_chars : Nat
  by_person : List (List Char × FinalPerson)
  by_month : List ((Nat × Nat) × Nat)
  by_hour : List Nat
  by_day_of_week : List Nat
  daily_counts : List ((Nat × Nat × Nat) × Nat)
  longest_message : LongestMessage
  most_active_day : (Nat × Nat × Nat) × Nat
  top_words : List (List Char × Nat)
  active_days : List (Nat × Nat × Nat)
  total_days : Nat
deriving DecidableEq, Repr

/-- Model of calculate_stats: the single aggregation pass, the per-person
finalization, and the most-active-day computation whose max raises
ValueError when no message survived. -/
def calculate_stats (messages : List Message) : Except PyErr FinalStats :=
  let ag := aggregate messages
  let st := ag.stats
  let persons := st.by_person.map (fun kv => (kv.1, finalizePerson kv.2))
  match maxByCountFirst st.daily_counts with
  | none => Except.error PyErr.valueError
  | some mad =>
    Except.ok { total_messages := st.total_messages
                total_media := st.total_media
                total_chars := st.total_chars
                by_person := persons
                by_month := st.by_month
                by_hour := st.by_hour
                by_day_of_week := st.by_day_of_week
                daily_counts := st.daily_counts
                longest_message := st.longest_message
                most_active_day := mad
                top_words := topWords st.word_counts
                active_days := st.active_days
                total_days := st.active_days.length }


/-- Computable equality of rationals through numerator and denominator,
so that concrete aggregation results evaluate inside decide. -/
instance ratDecEq : DecidableEq ℚ := fun a b =>
  decidable_of_iff (a.num = b.num ∧ a.den = b.den) (by
    constructor
    · rintro ⟨h1, h2⟩
      cases a
      cases b
      simp_all
    · rintro rfl
      exact ⟨rfl, rfl⟩)

/-- Every media-flagged message in the store carries the omitted marker
in its lowercased content. -/
def MediaInv (s : PState) : Prop :=
  ∀ m ∈ s.store, m.is_media = true → containsSub (lowerL m.content) ("omitted".data) = true

def tsIdx (s : PState) (i : Nat) : Nat := toSecs ((s.store.getD i default).date)

def curTsList (s : PState) : List Nat :=
  match s.cur with
  | some i => [tsIdx s i]
  | none => []

/-- The invariant tying the store, the output indices and the pending
index together while the parser runs. -/
structure ChainInv (s : PState) : Prop where
  outLt : ∀ i ∈ s.output, i < s.store.length
  curLast : ∀ i, s.cur = some i → s.store.length = i + 1
  curNone : s.cur = none → s.output = [] ∧ s.store = []
  storeChain : List.Chain' (· ≤ ·) (s.store.map (fun m => toSecs m.date))
  outChain : List.Chain' (· ≤ ·) s.output
  outLeCur : ∀ i j, s.cur = some j → i ∈ s.output → i ≤ j

/-! ### Lemmas about association lists -/

theorem alookup_aset_self {α β : Type} [DecidableEq α] (l : List (α × β)) (k : α)
    (f : β → β) : alookup (aset l k f) k = (alookup l k).map f := by
  induction l with
  | nil => rfl
  | cons hd tl ih =>
    obtain ⟨a, v⟩ := hd
    by_cases h : a = k <;> simp [aset, alookup, h, ih]

theorem alookup_aset_ne {α β : Type} [DecidableEq α] (l : List (α × β)) (k k2 : α)
    (f : β → β) (h : k2 ≠ k) : alookup (aset l k f) k2 = alookup l k2 := by
  induction l with
  | nil => rfl
  | cons hd tl ih =>
    obtain ⟨a, v⟩ := hd
    simp only [aset]
    by_cases ha : a = k
    · rw [if_pos ha]
      have hak2 : ¬ a = k2 := fun hh => h (hh.symm.trans ha)
      simp only [alookup, if_neg hak2]
    · rw [if_neg ha]
      simp only [alookup]
      by_cases ha2 : a = k2
      · rw [if_pos ha2, if_pos ha2]
      · rw [if_neg ha2, if_neg ha2]
        exact ih

theorem alookup_append_none {α β : Type} [DecidableEq α] (l : List (α × β)) (k : α)
    (d : β) (h : alookup l k = none) : alookup (l ++ [(k, d)]) k = some d := by
  induction l with
  | nil => simp [alookup]
  | cons hd tl ih =>
    obtain ⟨a, v⟩ := hd
    by_cases ha : a = k
    · simp [alookup, ha] at h
    · simp only [alookup, ha, List.cons_append, if_neg ha] at h ⊢
      exact ih h

theorem alookup_ensure_self {α β : Type} [DecidableEq α] (l : List (α × β)) (k : α)
    (d : β) : alookup (ensureKey l k d) k = some ((alookup l k).getD d) := by
  unfold ensureKey
  cases h : alookup l k with
  | none => simp [h, alookup_append_none l k d h]
  | some v => simp [h]

theorem alookup_append_single_ne {α β : Type} [DecidableEq α] (l : List (α × β))
    (k k2 : α) (d : β) (h : k2 ≠ k) : alookup (l ++ [(k, d)]) k2 = alookup l k2 := by
  induction l with
  | nil =>
    simp only [List.nil_append, alookup]
    rw [if_neg (fun hh : k = k2 => h hh.symm)]
  | cons hd tl ih =>
    obtain ⟨a, v⟩ := hd
    by_cases ha : a = k2 <;> simp [alookup, ha, ih]

theorem alookup_ensure_ne {α β : Type} [DecidableEq α] (l : List (α × β)) (k k2 : α)
    (d : β) (h : k2 ≠ k) : alookup (ensureKey l k d) k2 = alookup l k2 := by
  unfold ensureKey
  cases hs : (alookup l k).isSome
  · simp only [hs, Bool.false_eq_true, if_false]
    exact alookup_append_single_ne l k k2 d h
  · simp [hs]

/-- Projection transport through aset when the update preserves the
projection. -/
theorem map_proj_aset {α β γ : Type} [DecidableEq α] (l : List (α × β)) (k k2 : α)
    (f : β → β) (proj : β → γ) (hf : ∀ p, proj (f p) = proj p) :
    (alookup (aset l k2 f) k).map proj = (alookup l k).map proj := by
  by_cases h : k = k2
  · subst h
    rw [alookup_aset_self]
    cases alookup l k <;> simp [hf]
  · rw [alookup_aset_ne l k2 k f h]

theorem map_proj_if_aset {α β γ : Type} [DecidableEq α] (c : Prop) [Decidable c]
    (l : List (α × β)) (k k2 : α) (f : β → β) (proj : β → γ)
    (hf : ∀ p, proj (f p) = proj p) :
    (alookup (if c then aset l k2 f else l) k).map proj = (alookup l k).map proj := by
  by_cases hc : c
  · simp only [if_pos hc]
    exact map_proj_aset l k k2 f proj hf
  · simp [if_neg hc]

theorem isSome_alookup_aset {α β : Type} [DecidableEq α] (l : List (α × β)) (k k2 : α)
    (f : β → β) : (alookup (aset l k2 f) k).isSome = (alookup l k).isSome := by
  by_cases h : k = k2
  · subst h; rw [alookup_aset_self]; cases alookup l k <;> simp
  · rw [alookup_aset_ne l k2 k f h]

/-! ### Branch equations of processLine -/

theorem flushPending_store (s : PState) : (flushPending s).store = s.store := by
  unfold flushPending
  cases s.cur <;> rfl

theorem processLine_blank (s : PState) (raw : List Char)
    (h : rstripNL raw = []) : processLine s raw = s := by
  unfold processLine
  rw [h]
  rfl

theorem processLine_start (s : PState) (raw : List Char) (g : MatchGroups)
    (m : Message) (hne : rstripNL raw ≠ [])
    (hm : lineMatch (rstripNL raw) = some g) (hb : buildMessage g = some m) :
    processLine s raw =
      ⟨s.store ++ [m], (flushPending s).output, some s.store.length⟩ := by
  unfold processLine
  rw [if_neg hne, hm]
  dsimp only
  rw [hb]
  dsimp only
  rw [flushPending_store]

theorem processLine_invalid (s : PState) (raw : List Char) (g : MatchGroups)
    (hne : rstripNL raw ≠ [])
    (hm : lineMatch (rstripNL raw) = some g) (hb : buildMessage g = none) :
    processLine s raw = flushPending s := by
  unfold processLine
  rw [if_neg hne, hm]
  dsimp only
  rw [hb]

theorem processLine_cont (s : PState) (raw : List Char) (i : Nat)
    (hne : rstripNL raw ≠ [])
    (hm : lineMatch (rstripNL raw) = none) (hc : s.cur = some i)
    (hst : pyStrip (rstripNL raw) ≠ []) :
    processLine s raw =
      { s with store := (s.store.set i
          (appendCont (s.store.getD i default) (pyStrip (rstripNL raw)))) } := by
  unfold processLine
  rw [if_neg hne, hm]
  dsimp only
  rw [hc]
  dsimp only
  rw [if_neg hst]

theorem processLine_ws (s : PState) (raw : List Char) (i : Nat)
    (hne : rstripNL raw ≠ [])
    (hm : lineMatch (rstripNL raw) = none) (hc : s.cur = some i)
    (hst : pyStrip (rstripNL raw) = []) :
    processLine s raw = s := by
  unfold processLine
  rw [if_neg hne, hm]
  dsimp only
  rw [hc]
  dsimp only
  rw [if_pos hst]

theorem processLine_drop (s : PState) (raw : List Char)
    (hne : rstripNL raw ≠ [])
    (hm : lineMatch (rstripNL raw) = none) (hc : s.cur = none) :
    processLine s raw = s := by
  unfold processLine
  rw [if_neg hne, hm]
  dsimp only
  rw [hc]

/-! ### List access lemmas for the store model -/

theorem getD_set_self {α : Type} (l : List α) (i : Nat) (y d : α)
    (h : i < l.length) : (l.set i y).getD i d = y := by
  induction l generalizing i with
  | nil => simp at h
  | cons a t ih =>
    cases i with
    | zero => rfl
    | succ n => exact ih n (by simpa using h)

theorem getD_of_le {α : Type} (l : List α) (i : Nat) (d : α)
    (h : l.length ≤ i) : l.getD i d = d := by
  induction l generalizing i with
  | nil => cases i <;> rfl
  | cons a t ih =>
    cases i with
    | zero => simp at h
    | succ n => exact ih n (by simpa using h)

theorem getD_append_len {α : Type} (l : List α) (y d : α) :
    (l ++ [y]).getD l.length d = y := by
  induction l with
  | nil => rfl
  | cons a t ih => simp [ih]

theorem getD_append_lt {α : Type} (l l2 : List α) (i : Nat) (d : α)
    (h : i < l.length) : (l ++ l2).getD i d = l.getD i d := by
  induction l generalizing i with
  | nil => simp at h
  | cons a t ih =>
    cases i with
    | zero => rfl
    | succ n => simpa using ih n (by simpa using h)

theorem getD_mem {α : Type} (l : List α) (i : Nat) (d : α) (h : i < l.length) :
    l.getD i d ∈ l := by
  induction l generalizing i with
  | nil => simp at h
  | cons a t ih =>
    cases i with
    | zero => simp [List.getD]
    | succ n =>
      simp only [List.getD, List.get?]
      exact List.mem_cons_of_mem a (ih n (by simpa using h))

theorem mem_set_elim {α : Type} (l : List α) (i : Nat) (y x : α)
    (h : x ∈ l.set i y) : x ∈ l ∨ x = y := by
  induction l generalizing i with
  | nil => simp at h
  | cons a t ih =>
    cases i with
    | zero =>
      rcases List.mem_cons.1 h with h1 | h1
      · exact Or.inr h1
      · exact Or.inl (List.mem_cons_of_mem a h1)
    | succ n =>
      rcases List.mem_cons.1 h with h1 | h1
      · exact Or.inl (h1 ▸ List.mem_cons_self a t)
      · rcases ih n h1 with h2 | h2
        · exact Or.inl (List.mem_cons_of_mem a h2)
        · exact Or.inr h2

/-! ### The media flag only ever comes from the start line -/

theorem startsWithL_append (n h r : List Char) (hw : startsWithL n h = true) :
    startsWithL n (h ++ r) = true := by
  induction n generalizing h with
  | nil => rfl
  | cons a ps ih =>
    cases h with
    | nil => cases hw
    | cons b ls =>
      simp only [startsWithL, Bool.and_eq_true] at hw ⊢
      exact ⟨hw.1, ih ls hw.2⟩

theorem containsSub_nil_needle (r : List Char) : containsSub r [] = true := by
  cases r <;> simp [containsSub, startsWithL]

theorem containsSub_append (h r n : List Char) (hc : containsSub h n = true) :
    containsSub (h ++ r) n = true := by
  induction h with
  | nil =>
    have : n = [] := by
      cases n with
      | nil => rfl
      | cons a t => simp [containsSub, startsWithL] at hc
    rw [this]
    exact containsSub_nil_needle _
  | cons c t ih =>
    simp only [containsSub, Bool.or_eq_true] at hc
    rcases hc with hc | hc
    · simp only [List.cons_append, containsSub, Bool.or_eq_true]
      exact Or.inl (startsWithL_append n (c :: t) r hc)
    · simp only [List.cons_append, containsSub, Bool.or_eq_true]
      exact Or.inr (ih hc)

theorem appendCont_is_media (m : Message) (t : List Char) :
    (appendCont m t).is_media = m.is_media := rfl

theorem appendCont_content (m : Message) (t : List Char) :
    (appendCont m t).content = m.content ++ (Char.ofNat 32 :: t) := rfl

theorem appendCont_date (m : Message) (t : List Char) :
    (appendCont m t).date = m.date := rfl

theorem buildMessage_media (g : MatchGroups) (m : Message)
    (hb : buildMessage g = some m) :
    m.is_media = containsSub (lowerL m.content) ("omitted".data) := by
  unfold buildMessage at hb
  split at hb
  · cases hb
    rfl
  · cases hb

theorem processLine_media (s : PState) (raw : List Char) (h : MediaInv s) :
    MediaInv (processLine s raw) := by
  by_cases hempty : rstripNL raw = []
  · rw [processLine_blank s raw hempty]
    exact h
  · cases hm : lineMatch (rstripNL raw) with
    | some g =>
      cases hb : buildMessage g with
      | some m =>
        rw [processLine_start s raw g m hempty hm hb]
        intro x hx hmedia
        rcases List.mem_append.1 hx with hx1 | hx2
        · exact h x hx1 hmedia
        · have hxm : x = m := List.mem_singleton.1 hx2
          subst hxm
          rw [← buildMessage_media g x hb]
          exact hmedia
      | none =>
        rw [processLine_invalid s raw g hempty hm hb]
        intro x hx hmedia
        rw [flushPending_store s] at hx
        exact h x hx hmedia
    | none =>
      cases hc : s.cur with
      | some i =>
        by_cases hstrip : pyStrip (rstripNL raw) = []
        · rw [processLine_ws s raw i hempty hm hc hstrip]
          exact h
        · rw [processLine_cont s raw i hempty hm hc hstrip]
          intro x hx hmedia
          rcases mem_set_elim _ _ _ _ hx with h1 | h1
          · exact h x h1 hmedia
          · subst h1
            rw [appendCont_is_media] at hmedia
            by_cases hi : i < s.store.length
            · have hmem := getD_mem s.store i default hi
              have hcont := h _ hmem hmedia
              rw [appendCont_content, lowerL, List.map_append]
              exact containsSub_append _ _ _ hcont
            · rw [getD_of_le s.store i default (Nat.le_of_not_lt hi)] at hmedia
              cases hmedia
      | none =>
        rw [processLine_drop s raw hempty hm hc]
        exact h

theorem foldl_media (lines : List (List Char)) (s : PState) (h : MediaInv s) :
    MediaInv (List.foldl processLine s lines) := by
  induction lines generalizing s with
  | nil => exact h
  | cons l ls ih => exact ih (processLine s l) (processLine_media s l h)

/-! ### Order of emitted timestamps -/

theorem flushPending_cur (s : PState) : (flushPending s).cur = s.cur := by
  unfold flushPending
  cases hc : s.cur with
  | none => dsimp only; exact hc
  | some i => rfl

theorem curTsList_flush (s : PState) : curTsList (flushPending s) = curTsList s := by
  unfold curTsList tsIdx
  rw [flushPending_cur, flushPending_store]

theorem getD_map {α β : Type} (l : List α) (f : α → β) (i : Nat) (d : α) :
    (l.map f).getD i (f d) = f (l.getD i d) := by
  induction l generalizing i with
  | nil => cases i <;> rfl
  | cons a t ih =>
    cases i with
    | zero => rfl
    | succ n => simp [ih]

theorem map_ts_set (store : List Message) (i : Nat) (y : Message)
    (hy : toSecs y.date = toSecs ((store.getD i default).date)) :
    (store.set i y).map (fun m => toSecs m.date) =
      store.map (fun m => toSecs m.date) := by
  induction store generalizing i with
  | nil => rfl
  | cons a t ih =>
    cases i with
    | zero =>
      simp only [List.set, List.map_cons]
      rw [show toSecs y.date = toSecs a.date by simpa using hy]
    | succ n =>
      simp only [List.set, List.map_cons]
      rw [ih n (by simpa using hy)]

theorem getLast?_eq_getD {α : Type} (l : List α) (j : Nat) (d : α)
    (h : l.length = j + 1) : l.getLast? = some (l.getD j d) := by
  induction l generalizing j with
  | nil => simp at h
  | cons a t ih =>
    cases t with
    | nil =>
      have : j = 0 := by simpa using h
      subst this
      rfl
    | cons b t2 =>
      cases j with
      | zero => simp at h
      | succ n =>
        rw [List.getLast?_cons_cons]
        have := ih n (by simpa using h)
        simpa using this

theorem pairwise_getD {α : Type} {R : α → α → Prop} (l : List α)
    (hp : List.Pairwise R l) (i j : Nat) (hij : i < j) (hj : j < l.length)
    (d : α) : R (l.getD i d) (l.getD j d) := by
  induction l generalizing i j with
  | nil => simp at hj
  | cons a t ih =>
    rcases List.pairwise_cons.1 hp with ⟨hhead, htail⟩
    cases i with
    | zero =>
      cases j with
      | zero => cases hij
      | succ n =>
        have hn : n < t.length := by simpa using hj
        exact hhead _ (getD_mem t n d hn)
    | succ n =>
      cases j with
      | zero => cases hij
      | succ k =>
        exact ih htail n k (Nat.lt_of_succ_lt_succ hij) (by simpa using hj)

theorem tsIdx_mono (s : PState)
    (hsc : List.Chain' (· ≤ ·) (s.store.map (fun m => toSecs m.date)))
    (a b : Nat) (hb : b < s.store.length)
    (hab : a ≤ b) : tsIdx s a ≤ tsIdx s b := by
  rcases Nat.lt_or_ge a b with hlt | hge
  · have hp := List.chain'_iff_pairwise.1 hsc
    have := pairwise_getD _ hp a b hlt (by simpa using hb)
      (toSecs (default : Message).date)
    unfold tsIdx
    rw [show toSecs (default : Message).date =
      (fun m : Message => toSecs m.date) default from rfl] at this
    rw [getD_map, getD_map] at this
    exact this
  · have : a = b := Nat.le_antisymm hab hge
    rw [this]

theorem chain'_map_le (f : Nat → Nat) (l : List Nat)
    (hch : List.Chain' (· ≤ ·) l)
    (hmono : ∀ a b, a ∈ l → b ∈ l → a ≤ b → f a ≤ f b) :
    List.Chain' (· ≤ ·) (l.map f) := by
  induction l with
  | nil => simp
  | cons a rest ih =>
    cases rest with
    | nil => simp
    | cons b rest2 =>
      rw [List.map_cons, List.map_cons]
      rw [List.chain'_cons]
      rcases List.chain'_cons.1 hch with ⟨hab, htail⟩
      constructor
      · exact hmono a b (List.mem_cons_self _ _)
          (List.mem_cons_of_mem _ (List.mem_cons_self _ _)) hab
      · have := ih htail (fun x y hx hy hxy =>
          hmono x y (List.mem_cons_of_mem _ hx) (List.mem_cons_of_mem _ hy) hxy)
        simpa using this

theorem chainInv_flush (s : PState) (h : ChainInv s) : ChainInv (flushPending s) := by
  unfold flushPending
  cases hc : s.cur with
  | none => exact h
  | some i =>
    dsimp only
    have hlen : s.store.length = i + 1 := h.curLast i hc
    refine ⟨?_, ?_, ?_, ?_, ?_, ?_⟩
    · intro x hx
      rcases List.mem_append.1 hx with h1 | h1
      · exact h.outLt x h1
      · rw [List.mem_singleton.1 h1, hlen]
        exact Nat.lt_succ_self i
    · intro j hj
      cases hj
      exact hlen
    · intro hn
      cases hn
    · exact h.storeChain
    · rw [List.chain'_append]
      refine ⟨h.outChain, List.chain'_singleton i, ?_⟩
      intro x hx y hy
      have hxm : x ∈ s.output := List.mem_of_mem_getLast? hx
      have hyi : i = y := by simpa using hy
      rw [← hyi]
      exact h.outLeCur x i hc hxm
    · intro x j hj hx
      cases hj
      rcases List.mem_append.1 hx with h1 | h1
      · exact h.outLeCur x i hc h1
      · rw [List.mem_singleton.1 h1]

theorem step_none (s : PState) (raw : List Char) (hlt : lineTimestamp raw = none)
    (hInv : ChainInv s) :
    ChainInv (processLine s raw) ∧ curTsList (processLine s raw) = curTsList s := by
  by_cases hempty : rstripNL raw = []
  · rw [processLine_blank s raw hempty]
    exact ⟨hInv, rfl⟩
  · cases hm : lineMatch (rstripNL raw) with
    | some g =>
      have hb : buildMessage g = none := by
        unfold lineTimestamp at hlt
        rw [if_neg hempty, hm] at hlt
        dsimp only at hlt
        cases hbb : buildMessage g with
        | none => rfl
        | some m => rw [hbb] at hlt; cases hlt
      rw [processLine_invalid s raw g hempty hm hb]
      exact ⟨chainInv_flush s hInv, curTsList_flush s⟩
    | none =>
      cases hc : s.cur with
      | some i =>
        by_cases hstrip : pyStrip (rstripNL raw) = []
        · rw [processLine_ws s raw i hempty hm hc hstrip]
          exact ⟨hInv, rfl⟩
        · rw [processLine_cont s raw i hempty hm hc hstrip]
          have hilen : i < s.store.length := by
            rw [hInv.curLast i hc]
            exact Nat.lt_succ_self i
          have hy : toSecs ((appendCont (s.store.getD i default) (pyStrip (rstripNL raw))).date)
              = toSecs ((s.store.getD i default).date) := by rw [appendCont_date]
          constructor
          · refine ⟨?_, ?_, ?_, ?_, ?_, ?_⟩
            · intro x hx
              dsimp only at hx ⊢
              rw [List.length_set]
              exact hInv.outLt x hx
            · intro j hj
              dsimp only at hj ⊢
              rw [List.length_set]
              exact hInv.curLast j hj
            · intro hn
              dsimp only at hn
              rcases hInv.curNone hn with ⟨h1, h2⟩
              refine ⟨h1, ?_⟩
              dsimp only
              rw [h2]
              rfl
            · dsimp only
              rw [map_ts_set _ _ _ hy]
              exact hInv.storeChain
            · exact hInv.outChain
            · exact hInv.outLeCur
          · unfold curTsList tsIdx
            dsimp only
            rw [hc]
            dsimp only
            rw [getD_set_self _ _ _ _ hilen, hy]
      | none =>
        rw [processLine_drop s raw hempty hm hc]
        exact ⟨hInv, rfl⟩

theorem step_some (s : PState) (raw : List Char) (t : Nat)
    (hlt : lineTimestamp raw = some t)
    (hle : ∀ j, s.cur = some j → tsIdx s j ≤ t) (hInv : ChainInv s) :
    ChainInv (processLine s raw) ∧ curTsList (processLine s raw) = [t] := by
  have hempty : rstripNL raw ≠ [] := by
    intro h
    unfold lineTimestamp at hlt
    rw [if_pos h] at hlt
    cases hlt
  obtain ⟨g, hm, m, hb, htm⟩ : ∃ g, lineMatch (rstripNL raw) = some g ∧
      ∃ m, buildMessage g = some m ∧ toSecs m.date = t := by
    unfold lineTimestamp at hlt
    rw [if_neg hempty] at hlt
    cases hm : lineMatch (rstripNL raw) with
    | none => rw [hm] at hlt; cases hlt
    | some g =>
      rw [hm] at hlt
      dsimp only at hlt
      cases hb : buildMessage g with
      | none => rw [hb] at hlt; cases hlt
      | some m =>
        rw [hb] at hlt
        exact ⟨g, rfl, m, hb, by simpa using hlt⟩
  rw [processLine_start s raw g m hempty hm hb]
  have hflush := chainInv_flush s hInv
  have hfs : (flushPending s).store = s.store := flushPending_store s
  constructor
  · refine ⟨?_, ?_, ?_, ?_, ?_, ?_⟩
    · intro x hx
      dsimp only at hx ⊢
      have h1 : x < s.store.length := by
        have := hflush.outLt x hx
        rwa [hfs] at this
      rw [List.length_append]
      exact Nat.lt_succ_of_lt h1
    · intro j hj
      dsimp only at hj ⊢
      cases hj
      rw [List.length_append]
      rfl
    · intro hn
      dsimp only at hn
      cases hn
    · dsimp only
      rw [List.map_append]
      rw [List.chain'_append]
      refine ⟨hInv.storeChain, by simp, ?_⟩
      intro x hx y hy
      have hym : y = toSecs m.date := by
        simp only [List.map_cons, List.map_nil, List.head?] at hy
        exact (Option.mem_some_iff.1 hy).symm
      cases hcur : s.cur with
      | none =>
        rcases hInv.curNone hcur with ⟨_, hst⟩
        rw [hst] at hx
        simp at hx
      | some j =>
        have hlen := hInv.curLast j hcur
        have hgl : (s.store.map (fun x => toSecs x.date)).getLast? =
            some (tsIdx s j) := by
          rw [getLast?_eq_getD _ j (toSecs (default : Message).date)
            (by rw [List.length_map]; exact hlen)]
          rw [show toSecs (default : Message).date =
            (fun x : Message => toSecs x.date) default from rfl, getD_map]
          rfl
        rw [hgl] at hx
        have hxv : x = tsIdx s j := (Option.mem_some_iff.1 hx).symm
        rw [hxv, hym, htm]
        exact hle j hcur
    · exact hflush.outChain
    · intro x j hj hx
      dsimp only at hj hx
      cases hj
      have h1 : x < s.store.length := by
        have := hflush.outLt x hx
        rwa [hfs] at this
      exact Nat.le_of_lt h1
  · unfold curTsList tsIdx
    dsimp only
    rw [getD_append_len, htm]

theorem foldl_chain (lines : List (List Char)) (s : PState) (hInv : ChainInv s)
    (hch : List.Chain' (· ≤ ·) (curTsList s ++ startTimestamps lines)) :
    ChainInv (List.foldl processLine s lines) := by
  induction lines generalizing s with
  | nil => exact hInv
  | cons l ls ih =>
    cases hlt : lineTimestamp l with
    | none =>
      have hst : startTimestamps (l :: ls) = startTimestamps ls := by
        simp [startTimestamps, List.filterMap_cons, hlt]
      rw [hst] at hch
      obtain ⟨hInv2, hcur⟩ := step_none s l hlt hInv
      exact ih (processLine s l) hInv2 (by rw [hcur]; exact hch)
    | some t =>
      have hst : startTimestamps (l :: ls) = t :: startTimestamps ls := by
        simp [startTimestamps, List.filterMap_cons, hlt]
      rw [hst] at hch
      have hle : ∀ j, s.cur = some j → tsIdx s j ≤ t := by
        intro j hj
        unfold curTsList at hch
        rw [hj] at hch
        exact (List.chain'_cons.1 hch).1
      obtain ⟨hInv2, hcur⟩ := step_some s l t hlt hle hInv
      apply ih (processLine s l) hInv2
      rw [hcur]
      cases hcs : s.cur with
      | none =>
        unfold curTsList at hch
        rw [hcs] at hch
        exact hch
      | some j =>
        unfold curTsList at hch
        rw [hcs] at hch
        exact (List.chain'_cons.1 hch).2

theorem chain_emit (s1 : PState) (h : ChainInv s1) :
    List.Chain' (· ≤ ·)
      ((s1.output.map (fun i => s1.store.getD i default)).map
        (fun m => toSecs m.date)) := by
  rw [List.map_map]
  apply chain'_map_le _ _ h.outChain
  intro a b hma hmb hab
  exact tsIdx_mono s1 h.storeChain a b (h.outLt b hmb) hab


theorem buildMessage_fields (g : MatchGroups) (m : Message)
    (hb : buildMessage g = some m) :
    m.date.year = pivotYear g.year ∧ m.date.hour = to24Hour g.pm g.hour := by
  unfold buildMessage at hb
  split at hb
  · cases hb
    exact ⟨rfl, rfl⟩
  · cases hb

/-! ### Claims -/

/-- C1: the claim says the statistics computation on an empty filtered
message list, or on one containing only system messages, returns a
well-formed zero statistics structure without raising; the code instead
reaches max() over the then-empty daily_counts dict and raises
ValueError on both inputs, so the claim fails against the code. -/
theorem c1_empty_input_raises :
    calculate_stats [] = Except.error PyErr.valueError ∧
    calculate_stats [⟨⟨2024, 11, 25, 9, 0, 0⟩, ("2K25 OBRUTS".data), ("x".data),
      false, false, true⟩] = Except.error PyErr.valueError :=
  ⟨rfl, rfl⟩

/-- C2: the claim says the message pending before a rejected invalid-date
start line still appears exactly once in the output; the code flushes the
pending message into the output before validating the date and leaves it
pending on failure, so a pending message followed by a day-31-in-November
start line is emitted twice. -/
theorem c2_invalid_date_duplicates_pending :
    parse_chat [("[1/1/24, 10:00:00 AM] A: hello".data),
                ("[11/31/24, 10:00:00 AM] B: bad".data)] =
      [⟨⟨2024, 1, 1, 10, 0, 0⟩, ("A".data), ("hello".data), false, false, false⟩,
       ⟨⟨2024, 1, 1, 10, 0, 0⟩, ("A".data), ("hello".data), false, false, false⟩] := by
  decide

/-- C3 counterexample: an input whose two valid message-start lines carry
decreasing timestamps parses to an output that is not non-decreasing, so
the order invariant does not hold for arbitrary inputs. -/
theorem c3_counterexample :
    ¬ List.Pairwise (fun a b => toSecs a.date ≤ toSecs b.date)
      (parse_chat [("[1/2/24, 10:00:00 AM] A: x".data),
                   ("[1/1/24, 10:00:00 AM] B: y".data)]) := by
  decide

/-- C3 amended: the parser emits messages in input order without sorting,
so the output timestamps are non-decreasing exactly when the successfully
parsed start-line timestamps of the input are non-decreasing; under that
hypothesis the order invariant holds. -/
theorem c3_order_amended (lines : List (List Char))
    (hch : List.Chain' (· ≤ ·) (startTimestamps lines)) :
    List.Chain' (· ≤ ·) ((parse_chat lines).map (fun m => toSecs m.date)) := by
  have h0 : ChainInv ⟨[], [], none⟩ := by
    refine ⟨?_, ?_, ?_, ?_, ?_, ?_⟩
    · intro i hi; cases hi
    · intro i hi; cases hi
    · intro _; exact ⟨rfl, rfl⟩
    · simp
    · simp
    · intro i j hj hi; cases hi
  have hInv := foldl_chain lines ⟨[], [], none⟩ h0 (by simpa [curTsList] using hch)
  have hInv2 := chainInv_flush _ hInv
  unfold parse_chat
  exact chain_emit _ hInv2

/-- C3 witness: a two-line chronologically ordered input satisfies the
hypothesis and yields a non-decreasing output. -/
theorem c3_order_amended_witness :
    List.Chain' (· ≤ ·) (startTimestamps
      [("[1/1/24, 10:00:00 AM] A: x".data), ("[1/2/24, 10:00:00 AM] B: y".data)]) ∧
    List.Chain' (· ≤ ·) ((parse_chat
      [("[1/1/24, 10:00:00 AM] A: x".data), ("[1/2/24, 10:00:00 AM] B: y".data)]).map
        (fun m => toSecs m.date)) := by
  have hch : List.Chain' (· ≤ ·) (startTimestamps
      [("[1/1/24, 10:00:00 AM] A: x".data), ("[1/2/24, 10:00:00 AM] B: y".data)]) := by
    rw [show startTimestamps
        [("[1/1/24, 10:00:00 AM] A: x".data), ("[1/2/24, 10:00:00 AM] B: y".data)] =
      [toSecs ⟨2024, 1, 1, 10, 0, 0⟩, toSecs ⟨2024, 1, 2, 10, 0, 0⟩] from rfl]
    exact List.chain'_cons.2 ⟨by decide, List.chain'_singleton _⟩
  exact ⟨hch, c3_order_amended _ hch⟩

/-- C4 counterexample: two consecutive non-system messages whose raw
senders differ but normalize to the same canonical name do record a
response-time sample and do increment the replied-to counter, because the
aggregator compares raw senders, refuting the claim that the comparison
is made on normalized names. -/
theorem c4_counterexample :
    ("Aziz El Romancy".data) ≠ ("Aziz El Romancy😍".data) ∧
    normalize_name ("Aziz El Romancy".data) = normalize_name ("Aziz El Romancy😍".data) ∧
    (alookup (aggregate
        [⟨⟨2025, 1, 1, 10, 0, 0⟩, ("Aziz El Romancy".data), ("hi".data), false, false, false⟩,
         ⟨⟨2025, 1, 1, 10, 10, 0⟩, ("Aziz El Romancy😍".data), ("yo".data), false, false, false⟩]).stats.by_person
      (normalize_name ("Aziz El Romancy".data))).map
        (fun p => (p.response_times, p.replied_to_count)) = some ([10], 1) := by
  refine ⟨by decide, by decide, ?_⟩
  decide

/-- C4 amended: the temporal comparisons are evaluated on raw sender
strings; for two consecutive non-system messages whose raw senders differ
but map to the same canonical name under the alias table, with elapsed
time strictly between 0 and 30 minutes, the aggregator does record a
response-time sample for the shared canonical person and does increment
that person's replied-to counter. -/
theorem c4_alias_compare_amended (ag : AggState) (pm msg : Message)
    (hprev : ag.prev_message = some pm)
    (hsys : msg.is_system = false)
    (hraw : pm.sender ≠ msg.sender)
    (hsame : normalize_name pm.sender = normalize_name msg.sender)
    (h0 : 0 < diffMinutes pm.date msg.date)
    (h30 : diffMinutes pm.date msg.date < 30) :
    (alookup (processMessage ag msg).stats.by_person (normalize_name msg.sender)).map
        (fun p => (p.response_times, p.replied_to_count)) =
      some ((((alookup ag.stats.by_person (normalize_name msg.sender)).getD
            initPerson).response_times ++ [diffMinutes pm.date msg.date]),
        ((alookup ag.stats.by_person (normalize_name msg.sender)).getD
            initPerson).replied_to_count + 1) := by
  have h60 : diffMinutes pm.date msg.date < 60 := lt_trans h30 (by norm_num)
  have h120 : ¬ (120 < diffMinutes pm.date msg.date) :=
    fun h => absurd (lt_trans h h30) (by norm_num)
  unfold processMessage
  simp only [hsys, Bool.false_eq_true, if_false, hprev]
  rw [hsame]
  set s := normalize_name msg.sender with hs
  set d := diffMinutes pm.date msg.date with hd
  set B0 := ag.stats.by_person with hB0
  set f1 := personUpdate msg msg.date.hour (dayOfWeekOf msg.date) (dateKeyOf msg.date) with hf1
  set B1 := aset (ensureKey B0 s initPerson) s f1 with hB1
  rw [if_neg h120]
  rw [if_pos (show pm.sender ≠ msg.sender ∧ 0 < d ∧ d < 60 from ⟨hraw, h0, h60⟩)]
  set B3 := aset B1 s (fun p => { p with response_times := p.response_times ++ [d] }) with hB3
  have hl1 : alookup B1 s = some (f1 ((alookup B0 s).getD initPerson)) := by
    rw [hB1, alookup_aset_self, alookup_ensure_self]
    rfl
  have hl3 : alookup B3 s = some (let q := f1 ((alookup B0 s).getD initPerson)
      { q with response_times := q.response_times ++ [d] }) := by
    rw [hB3, alookup_aset_self, hl1]
    rfl
  have hsm : (alookup B3 s).isSome = true := by rw [hl3]; rfl
  rw [if_pos (show pm.sender ≠ msg.sender ∧ d < 30 from ⟨hraw, h30⟩)]
  rw [if_pos hsm]
  rw [alookup_aset_self, hl3]
  rfl

/-- C4 witness: the amended behaviour on a concrete pair of aliased
senders ten minutes apart. -/
theorem c4_alias_compare_amended_witness :
    (alookup (processMessage
        ⟨initStats, some ⟨⟨2025, 1, 1, 10, 0, 0⟩, ("Aziz El Romancy".data),
          ("hi".data), false, false, false⟩⟩
        ⟨⟨2025, 1, 1, 10, 10, 0⟩, ("Aziz El Romancy😍".data), ("yo".data),
          false, false, false⟩).stats.by_person
      (normalize_name ("Aziz El Romancy😍".data))).map
        (fun p => (p.response_times, p.replied_to_count)) =
      some ((((alookup initStats.by_person
            (normalize_name ("Aziz El Romancy😍".data))).getD
            initPerson).response_times ++
          [diffMinutes ⟨2025, 1, 1, 10, 0, 0⟩ ⟨2025, 1, 1, 10, 10, 0⟩]),
        ((alookup initStats.by_person
            (normalize_name ("Aziz El Romancy😍".data))).getD
            initPerson).replied_to_count + 1) :=
  c4_alias_compare_amended
    ⟨initStats, some ⟨⟨2025, 1, 1, 10, 0, 0⟩, ("Aziz El Romancy".data),
      ("hi".data), false, false, false⟩⟩
    ⟨⟨2025, 1, 1, 10, 0, 0⟩, ("Aziz El Romancy".data), ("hi".data), false, false, false⟩
    ⟨⟨2025, 1, 1, 10, 10, 0⟩, ("Aziz El Romancy😍".data), ("yo".data), false, false, false⟩
    rfl rfl (by decide) (by decide) (by decide) (by decide)

/-- C5 counterexample: a continuation line can introduce the omitted
marker into the final joined content while is_media, computed from the
start line text alone, stays false, so the claimed equivalence between
is_media and the final content containing the marker fails. -/
theorem c5_counterexample :
    (parse_chat [("[1/1/24, 10:00:00 AM] A: hello".data), ("image omitted".data)]).map
      (fun m => (m.is_media, containsSub (lowerL m.content) ("omitted".data))) =
      [(false, true)] := by
  decide

/-- C5 amended: is_media is computed once from the start line's trailing
text, before continuation lines are appended; the surviving direction is
that every emitted media-flagged message's full content contains the
omitted marker case-insensitively, while the converse fails when the
marker arrives in a continuation line. -/
theorem c5_media_flag_amended (lines : List (List Char)) (m : Message)
    (hm : m ∈ parse_chat lines) (hmedia : m.is_media = true) :
    containsSub (lowerL m.content) ("omitted".data) = true := by
  have hinv : MediaInv (List.foldl processLine ⟨[], [], none⟩ lines) :=
    foldl_media lines ⟨[], [], none⟩ (fun x hx => by cases hx)
  unfold parse_chat at hm
  rcases List.mem_map.1 hm with ⟨i, _, hget⟩
  by_cases hi : i < (flushPending (List.foldl processLine ⟨[], [], none⟩ lines)).store.length
  · have hmem := getD_mem _ i default hi
    rw [hget] at hmem
    rw [flushPending_store] at hmem
    exact hinv m hmem hmedia
  · rw [getD_of_le _ i default (Nat.le_of_not_lt hi)] at hget
    rw [← hget] at hmedia
    cases hmedia

/-- C5 witness: a media message emitted from a single start line carries
the marker in its content. -/
theorem c5_media_flag_amended_witness :
    (⟨⟨2024, 1, 1, 10, 0, 0⟩, ("A".data), ("pic omitted".data), true, false, false⟩ : Message) ∈
      parse_chat [("[1/1/24, 10:00:00 AM] A: pic omitted".data)] ∧
    containsSub (lowerL ("pic omitted".data)) ("omitted".data) = true :=
  ⟨by decide, c5_media_flag_amended [("[1/1/24, 10:00:00 AM] A: pic omitted".data)]
    ⟨⟨2024, 1, 1, 10, 0, 0⟩, ("A".data), ("pic omitted".data), true, false, false⟩
    (by decide) (by decide)⟩

/-- C6: for consecutive retained non-system messages with different
senders (both raw and normalized) and elapsed time strictly between 0 and
60 minutes, the aggregator appends the elapsed minutes as a response-time
sample to the current sender's record, and the previous sender's
response-time samples are unchanged. -/
theorem c6_response_attribution (ag : AggState) (pm msg : Message)
    (hprev : ag.prev_message = some pm)
    (hsys : msg.is_system = false)
    (hraw : pm.sender ≠ msg.sender)
    (hnorm : normalize_name pm.sender ≠ normalize_name msg.sender)
    (h0 : 0 < diffMinutes pm.date msg.date)
    (h60 : diffMinutes pm.date msg.date < 60) :
    (alookup (processMessage ag msg).stats.by_person (normalize_name msg.sender)).map
        (fun p => p.response_times) =
      some (((alookup ag.stats.by_person (normalize_name msg.sender)).getD
          initPerson).response_times ++ [diffMinutes pm.date msg.date]) ∧
    (alookup (processMessage ag msg).stats.by_person (normalize_name pm.sender)).map
        (fun p => p.response_times) =
      (alookup ag.stats.by_person (normalize_name pm.sender)).map
        (fun p => p.response_times) := by
  unfold processMessage
  simp only [hsys, Bool.false_eq_true, if_false, hprev]
  set s := normalize_name msg.sender with hs
  set ps := normalize_name pm.sender with hps
  set d := diffMinutes pm.date msg.date with hd
  set B0 := ag.stats.by_person with hB0
  set f1 := personUpdate msg msg.date.hour (dayOfWeekOf msg.date) (dateKeyOf msg.date) with hf1
  set B1 := aset (ensureKey B0 s initPerson) s f1 with hB1
  set B2 := if 120 < d then
      aset B1 s (fun p => { p with conversations_started := p.conversations_started + 1 })
    else B1 with hB2
  have hcond : pm.sender ≠ msg.sender ∧ 0 < d ∧ d < 60 := ⟨hraw, h0, h60⟩
  rw [if_pos hcond]
  set B3 := aset B2 s (fun p => { p with response_times := p.response_times ++ [d] }) with hB3
  have hq1 : (alookup B1 s).map (fun p => p.response_times) =
      some (((alookup B0 s).getD initPerson).response_times) := by
    rw [hB1, alookup_aset_self, alookup_ensure_self]
    rfl
  have hq2 : (alookup B2 s).map (fun p => p.response_times) =
      some (((alookup B0 s).getD initPerson).response_times) := by
    rw [hB2]
    by_cases h120 : 120 < d
    · rw [if_pos h120, map_proj_aset B1 s s
        (fun p => { p with conversations_started := p.conversations_started + 1 })
        (fun p => p.response_times) (fun p => rfl)]
      exact hq1
    · rw [if_neg h120]
      exact hq1
  have hq3 : (alookup B3 s).map (fun p => p.response_times) =
      some (((alookup B0 s).getD initPerson).response_times ++ [d]) := by
    rw [hB3, alookup_aset_self]
    cases hx : alookup B2 s with
    | none => rw [hx] at hq2; cases hq2
    | some p2 =>
      rw [hx] at hq2
      have hp2 : p2.response_times = ((alookup B0 s).getD initPerson).response_times := by
        simpa using hq2
      simp [hp2]
  have hB1ps : alookup B1 ps = alookup B0 ps := by
    rw [hB1, alookup_aset_ne _ _ _ _ hnorm, alookup_ensure_ne _ _ _ _ hnorm]
  have hB2ps : alookup B2 ps = alookup B0 ps := by
    rw [hB2]
    by_cases h120 : 120 < d
    · rw [if_pos h120, alookup_aset_ne _ _ _ _ hnorm, hB1ps]
    · rw [if_neg h120, hB1ps]
  have hB3ps : alookup B3 ps = alookup B0 ps := by
    rw [hB3, alookup_aset_ne _ _ _ _ hnorm, hB2ps]
  by_cases h30 : d < 30
  · rw [if_pos (show pm.sender ≠ msg.sender ∧ d < 30 from ⟨hraw, h30⟩)]
    cases hsm : (alookup B3 ps).isSome
    · simp only [hsm, Bool.false_eq_true, if_false]
      exact ⟨hq3, by rw [hB3ps]⟩
    · simp only [hsm, if_true]
      refine ⟨?_, ?_⟩
      · rw [alookup_aset_ne _ _ _ _ (Ne.symm hnorm)]
        exact hq3
      · rw [map_proj_aset B3 ps ps
          (fun p => { p with replied_to_count := p.replied_to_count + 1 })
          (fun p => p.response_times) (fun p => rfl), hB3ps]
  · rw [if_neg (fun hc : pm.sender ≠ msg.sender ∧ d < 30 => h30 hc.2)]
    exact ⟨hq3, by rw [hB3ps]⟩

/-- C6 witness: sender A at 9:00 followed by sender B at 9:05 yields a
five-minute sample for B and leaves A's samples unchanged. -/
theorem c6_response_attribution_witness :
    (alookup (processMessage
        ⟨initStats, some ⟨⟨2024, 11, 25, 9, 0, 0⟩, ("A".data), ("hi".data),
          false, false, false⟩⟩
        ⟨⟨2024, 11, 25, 9, 5, 0⟩, ("B".data), ("yo".data),
          false, false, false⟩).stats.by_person
      (normalize_name ("B".data))).map (fun p => p.response_times) =
      some (((alookup initStats.by_person (normalize_name ("B".data))).getD
          initPerson).response_times ++
        [diffMinutes ⟨2024, 11, 25, 9, 0, 0⟩ ⟨2024, 11, 25, 9, 5, 0⟩]) ∧
    (alookup (processMessage
        ⟨initStats, some ⟨⟨2024, 11, 25, 9, 0, 0⟩, ("A".data), ("hi".data),
          false, false, false⟩⟩
        ⟨⟨2024, 11, 25, 9, 5, 0⟩, ("B".data), ("yo".data),
          false, false, false⟩).stats.by_person
      (normalize_name ("A".data))).map (fun p => p.response_times) =
      (alookup initStats.by_person (normalize_name ("A".data))).map
        (fun p => p.response_times) :=
  c6_response_attribution
    ⟨initStats, some ⟨⟨2024, 11, 25, 9, 0, 0⟩, ("A".data), ("hi".data),
      false, false, false⟩⟩
    ⟨⟨2024, 11, 25, 9, 0, 0⟩, ("A".data), ("hi".data), false, false, false⟩
    ⟨⟨2024, 11, 25, 9, 5, 0⟩, ("B".data), ("yo".data), false, false, false⟩
    rfl rfl (by decide) (by decide) (by decide) (by decide)

/-- C7: at finalization a person with zero non-media messages gets
avg_chars equal to 0 rather than an error, and a person with no collected
response-time samples gets null avg_response and fastest_response rather
than zero. -/
theorem c7_division_guards (p : PersonStats) :
    (p.messages - p.media = 0 → (finalizePerson p).avg_chars = 0) ∧
    (p.response_times = [] → (finalizePerson p).avg_response = none ∧
      (finalizePerson p).fastest_response = none) := by
  constructor
  · intro h
    simp [finalizePerson, h]
  · intro h
    simp [finalizePerson, h]

/-- C7 witness: the fresh person record has no non-media messages and no
samples, and finalizes to zero average characters and null responses. -/
theorem c7_division_guards_witness :
    initPerson.messages - initPerson.media = 0 ∧ initPerson.response_times = [] ∧
    (finalizePerson initPerson).avg_chars = 0 ∧
    (finalizePerson initPerson).avg_response = none ∧
    (finalizePerson initPerson).fastest_response = none :=
  ⟨rfl, rfl, (c7_division_guards initPerson).1 rfl,
   ((c7_division_guards initPerson).2 rfl).1, ((c7_division_guards initPerson).2 rfl).2⟩

/-- C8: the meridiem conversion of the parser maps 12:15:00 AM to hour 0,
12:15:00 PM to hour 12 and 07:30:00 PM to hour 19, and a line without a
meridiem marker keeps its hour field literally. -/
theorem c8_meridiem_conversion :
    (∀ g m, g.pm = none → buildMessage g = some m → m.date.hour = g.hour) ∧
    (parse_chat [("[1/1/24, 12:15:00 AM] A: x".data)]).map (fun m => m.date.hour) = [0] ∧
    (parse_chat [("[1/1/24, 12:15:00 PM] A: x".data)]).map (fun m => m.date.hour) = [12] ∧
    (parse_chat [("[1/1/24, 07:30:00 PM] A: x".data)]).map (fun m => m.date.hour) = [19] ∧
    (parse_chat [("[1/1/24, 07:30:00] A: x".data)]).map (fun m => m.date.hour) = [7] := by
  refine ⟨?_, by decide, by decide, by decide, by decide⟩
  intro g m hpm hb
  rw [(buildMessage_fields g m hb).2, hpm]
  rfl

/-- C8 witness: a concrete marker-free start builds with its literal
hour. -/
theorem c8_meridiem_conversion_witness :
    buildMessage ⟨1, 1, 24, 7, 30, 0, none, ("A".data), ("x".data)⟩ =
      some ⟨⟨2024, 1, 1, 7, 30, 0⟩, ("A".data), ("x".data), false, false, false⟩ ∧
    (⟨⟨2024, 1, 1, 7, 30, 0⟩, ("A".data), ("x".data), false, false, false⟩ :
      Message).date.hour = 7 :=
  ⟨by decide, c8_meridiem_conversion.1 ⟨1, 1, 24, 7, 30, 0, none, ("A".data), ("x".data)⟩
    ⟨⟨2024, 1, 1, 7, 30, 0⟩, ("A".data), ("x".data), false, false, false⟩
    rfl (by decide)⟩

/-- C9: the two-digit year is resolved through the pivot, below 50 into
the 2000s and otherwise into the 1900s; in particular 24 gives 2024, 99
gives 1999, 49 gives 2049 and 50 gives 1950. -/
theorem c9_year_pivot :
    (∀ g m, g.year < 50 → buildMessage g = some m → m.date.year = 2000 + g.year) ∧
    (∀ g m, ¬ g.year < 50 → buildMessage g = some m → m.date.year = 1900 + g.year) ∧
    (parse_chat [("[1/1/24, 10:00:00 AM] A: x".data)]).map (fun m => m.date.year) = [2024] ∧
    (parse_chat [("[1/1/99, 10:00:00 AM] A: x".data)]).map (fun m => m.date.year) = [1999] ∧
    (parse_chat [("[1/1/49, 10:00:00 AM] A: x".data)]).map (fun m => m.date.year) = [2049] ∧
    (parse_chat [("[1/1/50, 10:00:00 AM] A: x".data)]).map (fun m => m.date.year) = [1950] := by
  refine ⟨?_, ?_, by decide, by decide, by decide, by decide⟩
  · intro g m hy hb
    rw [(buildMessage_fields g m hb).1]
    exact if_pos hy
  · intro g m hy hb
    rw [(buildMessage_fields g m hb).1]
    exact if_neg hy

/-- C9 witness: a concrete below-pivot year builds into the 2000s. -/
theorem c9_year_pivot_witness :
    (24 : Nat) < 50 ∧
    buildMessage ⟨1, 1, 24, 10, 0, 0, some false, ("A".data), ("x".data)⟩ =
      some ⟨⟨2024, 1, 1, 10, 0, 0⟩, ("A".data), ("x".data), false, false, false⟩ ∧
    (⟨⟨2024, 1, 1, 10, 0, 0⟩, ("A".data), ("x".data), false, false, false⟩ :
      Message).date.year = 2000 + 24 :=
  ⟨by decide, by decide,
   c9_year_pivot.1 ⟨1, 1, 24, 10, 0, 0, some false, ("A".data), ("x".data)⟩
    ⟨⟨2024, 1, 1, 10, 0, 0⟩, ("A".data), ("x".data), false, false, false⟩
    (by decide) (by decide)⟩

/-- C10: a message-start line followed by two non-blank non-matching
lines yields exactly one message whose content is the trailing text and
the two trimmed continuation lines joined with single spaces, and
interspersed blank lines neither flush nor extend the pending message. -/
theorem c10_continuation_merging (L c1 c2 : List Char) (g : MatchGroups) (m : Message)
    (hL : rstripNL L = L) (hc1 : rstripNL c1 = c1) (hc2 : rstripNL c2 = c2)
    (hmL : lineMatch L = some g) (hbuild : buildMessage g = some m)
    (hm1 : lineMatch c1 = none) (hm2 : lineMatch c2 = none)
    (hs1 : pyStrip c1 ≠ []) (hs2 : pyStrip c2 ≠ []) :
    parse_chat [L, c1, c2] =
      [{ m with content := m.content ++ (Char.ofNat 32 :: pyStrip c1)
          ++ (Char.ofNat 32 :: pyStrip c2) }] ∧
    parse_chat [L, [], c1, [], c2, []] =
      [{ m with content := m.content ++ (Char.ofNat 32 :: pyStrip c1)
          ++ (Char.ofNat 32 :: pyStrip c2) }] := by
  have hLne : L ≠ [] := by
    intro h
    rw [h] at hmL
    rw [show lineMatch ([] : List Char) = none from rfl] at hmL
    cases hmL
  have hc1ne : c1 ≠ [] := by
    intro h
    rw [h] at hs1
    exact hs1 rfl
  have hc2ne : c2 ≠ [] := by
    intro h
    rw [h] at hs2
    exact hs2 rfl
  have e1 : processLine ⟨[], [], none⟩ L = ⟨[m], [], some 0⟩ := by
    unfold processLine
    rw [hL]
    rw [if_neg hLne, hmL]
    simp only [flushPending, hbuild]
    rfl
  have e2 : processLine ⟨[m], [], some 0⟩ c1 =
      ⟨[appendCont m (pyStrip c1)], [], some 0⟩ := by
    unfold processLine
    rw [hc1]
    rw [if_neg hc1ne, hm1]
    simp only [if_neg hs1]
    rfl
  have e3 : processLine ⟨[appendCont m (pyStrip c1)], [], some 0⟩ c2 =
      ⟨[appendCont (appendCont m (pyStrip c1)) (pyStrip c2)], [], some 0⟩ := by
    unfold processLine
    rw [hc2]
    rw [if_neg hc2ne, hm2]
    simp only [if_neg hs2]
    rfl
  have eblank : ∀ s : PState, processLine s [] = s := fun s => rfl
  have hfinal : appendCont (appendCont m (pyStrip c1)) (pyStrip c2) =
      { m with content := m.content ++ (Char.ofNat 32 :: pyStrip c1)
          ++ (Char.ofNat 32 :: pyStrip c2) } := rfl
  constructor
  · show (let s := List.foldl processLine ⟨[], [], none⟩ [L, c1, c2]
      let s1 := flushPending s
      s1.output.map (fun i => s1.store.getD i default)) = _
    simp only [List.foldl, e1, e2, e3]
    rw [hfinal]
    rfl
  · show (let s := List.foldl processLine ⟨[], [], none⟩ [L, [], c1, [], c2, []]
      let s1 := flushPending s
      s1.output.map (fun i => s1.store.getD i default)) = _
    simp only [List.foldl, e1, e2, e3, eblank]
    rw [hfinal]
    rfl

/-- C10 witness: a concrete start line with two continuations, with and
without interspersed blank lines. -/
theorem c10_continuation_merging_witness :
    parse_chat [("[1/1/24, 10:00:00 AM] A: hello".data), ("cont one".data),
        ("cont two".data)] =
      [⟨⟨2024, 1, 1, 10, 0, 0⟩, ("A".data), ("hello cont one cont two".data),
        false, false, false⟩] ∧
    parse_chat [("[1/1/24, 10:00:00 AM] A: hello".data), [], ("cont one".data),
        [], ("cont two".data), []] =
      [⟨⟨2024, 1, 1, 10, 0, 0⟩, ("A".data), ("hello cont one cont two".data),
        false, false, false⟩] :=
  c10_continuation_merging ("[1/1/24, 10:00:00 AM] A: hello".data)
    ("cont one".data) ("cont two".data)
    ⟨1, 1, 24, 10, 0, 0, some false, ("A".data), ("hello".data)⟩
    ⟨⟨2024, 1, 1, 10, 0, 0⟩, ("A".data), ("hello".data), false, false, false⟩
    (by decide) (by decide) (by decide) (by decide) (by decide) (by decide)
    (by decide) (by decide) (by decide)
